import Mathlib

set_option maxRecDepth 4000
set_option maxHeartbeats 1000000

/-!
Shallow embedding of `src/streams.py` from the mcp_fiumi_romagna repository.

The embedded core covers: text normalization (`normalize_text`), generic-word
stripping (`strip_generic_words`), token matching with stable scored fallback
(`select_stations_by_query`), the retrieval fallback and its orchestration
(`retrieve_station_names`, `select_stations_by_query_with_retrieval`), the
JSON-array salvaging parser (`parse_json_array`), the DST timestamp heuristic
(`is_dst`, `get_timestamp_ms`), input validation (`normalize_max_results`),
and the `livello_idrometrico` tool body.

Python strings are modelled as lists of characters (`Str`).  Platform
behaviour (the local timezone as seen by `time.mktime`/`time.localtime`/
`time.timezone`/`time.altzone` and by naive `datetime.timestamp()`) is
modelled by an explicit environment `TzEnv`; network transports are modelled
as `Except`-valued parameters.
-/

abbrev Str := List Char

/-! ### Python string helpers -/

/-- The whitespace characters stripped by Python `str.strip()` (the ASCII
ones; exotic Unicode spaces are not modelled). -/
def is_py_ws (c : Char) : Bool :=
  decide (c = ' ' ∨ c = '\t' ∨ c = '\n' ∨ c = '\r' ∨ c = '\x0b' ∨ c = '\x0c')

/-- Python `str.strip()`: drop leading and trailing whitespace. -/
def py_strip (s : Str) : Str :=
  ((s.dropWhile is_py_ws).reverse.dropWhile is_py_ws).reverse

/-! ### normalize_text (src/streams.py lines 31-38) -/

/-- NFD decompositions for the accented Latin letters relevant to the data
(`unicodedata.normalize("NFD", ...)` restricted to Latin-1 / Latin Extended
letters; codepoints not listed decompose to themselves). -/
def nfd_table : List (Char × Str) :=
  [ ('À', ['A', '̀']), ('Á', ['A', '́']), ('Â', ['A', '̂']),
    ('Ã', ['A', '̃']), ('Ä', ['A', '̈']), ('Å', ['A', '̊']),
    ('Ç', ['C', '̧']), ('È', ['E', '̀']), ('É', ['E', '́']),
    ('Ê', ['E', '̂']), ('Ë', ['E', '̈']), ('Ì', ['I', '̀']),
    ('Í', ['I', '́']), ('Î', ['I', '̂']), ('Ï', ['I', '̈']),
    ('Ñ', ['N', '̃']), ('Ò', ['O', '̀']), ('Ó', ['O', '́']),
    ('Ô', ['O', '̂']), ('Õ', ['O', '̃']), ('Ö', ['O', '̈']),
    ('Ù', ['U', '̀']), ('Ú', ['U', '́']), ('Û', ['U', '̂']),
    ('Ü', ['U', '̈']), ('Ý', ['Y', '́']),
    ('à', ['a', '̀']), ('á', ['a', '́']), ('â', ['a', '̂']),
    ('ã', ['a', '̃']), ('ä', ['a', '̈']), ('å', ['a', '̊']),
    ('ç', ['c', '̧']), ('è', ['e', '̀']), ('é', ['e', '́']),
    ('ê', ['e', '̂']), ('ë', ['e', '̈']), ('ì', ['i', '̀']),
    ('í', ['i', '́']), ('î', ['i', '̂']), ('ï', ['i', '̈']),
    ('ñ', ['n', '̃']), ('ò', ['o', '̀']), ('ó', ['o', '́']),
    ('ô', ['o', '̂']), ('õ', ['o', '̃']), ('ö', ['o', '̈']),
    ('ù', ['u', '̀']), ('ú', ['u', '́']), ('û', ['u', '̂']),
    ('ü', ['u', '̈']), ('ý', ['y', '́']), ('ÿ', ['y', '̈']) ]

/-- One character of `unicodedata.normalize("NFD", ...)`.  Codepoints below
U+00C0 are NFD-invariant. -/
def nfd_char (c : Char) : Str :=
  if c.toNat < 0xC0 then [c] else (nfd_table.lookup c).getD [c]

/-- `unicodedata.category(ch) == "Mn"`, modelled on the Combining Diacritical
Marks block U+0300..U+036F (the marks produced by `nfd_table`). -/
def is_combining_mark (c : Char) : Bool :=
  decide (0x300 ≤ c.toNat ∧ c.toNat ≤ 0x36F)

/-- Python `str.lower()` on the character range the pipeline can see
(ASCII plus Latin-1 capitals). -/
def py_lower (c : Char) : Char :=
  if 'A' ≤ c ∧ c ≤ 'Z' then Char.ofNat (c.toNat + 32)
  else if 0xC0 ≤ c.toNat ∧ c.toNat ≤ 0xDE ∧ c.toNat ≠ 0xD7 then
    Char.ofNat (c.toNat + 32)
  else c

def is_lower_alnum (c : Char) : Bool :=
  decide (('a' ≤ c ∧ c ≤ 'z') ∨ ('0' ≤ c ∧ c ≤ '9'))

/-- `re.sub(r"[^a-z0-9]+", " ", text)`: replace each maximal run of
non-alphanumeric characters by a single space.  The flag records whether the
current position is inside such a run. -/
def collapse_aux : Bool → Str → Str
  | _, [] => []
  | prevGap, c :: rest =>
    if is_lower_alnum c then c :: collapse_aux false rest
    else if prevGap then collapse_aux true rest
    else ' ' :: collapse_aux true rest

/-- `normalize_text` from src/streams.py: NFD-decompose, drop combining
marks, lowercase, collapse non-alphanumeric runs to single spaces, strip. -/
def normalize_text (s : Str) : Str :=
  py_strip (collapse_aux false (((s.map nfd_char).flatten.filter
    (fun c => !is_combining_mark c)).map py_lower))

/-! ### strip_generic_words (src/streams.py lines 41-50) -/

/-- A regex word character (`\b` boundaries): ASCII alphanumerics, the
underscore, and the Latin-1/Latin-Extended letters (U+00C0..U+024F minus the
two operators), which are word characters under Python Unicode matching. -/
def is_word_char (c : Char) : Bool :=
  (decide ('a' ≤ c) && decide (c ≤ 'z')) || (decide ('A' ≤ c) && decide (c ≤ 'Z')) ||
  c.isDigit || c == '_' ||
  (decide (0xC0 ≤ c.toNat) && decide (c.toNat ≤ 0x24F) &&
    !(c.toNat == 0xD7) && !(c.toNat == 0xF7))

/-- ASCII lowercasing used for the case-insensitive word comparison. -/
def ascii_lower (c : Char) : Char :=
  if decide ('A' ≤ c) && decide (c ≤ 'Z') then Char.ofNat (c.toNat + 32) else c

def generic_words : List Str :=
  ["fiume".toList, "torrente".toList, "rio".toList, "canale".toList, "fosso".toList]

/-- Does the generic word `w` match (case-insensitively) at the start of
`cs`, with a word boundary after it?  The boundary before it is checked by
the caller. -/
def matches_word_at (w : Str) (cs : Str) : Bool :=
  ((cs.take w.length).map ascii_lower == w) &&
  (match cs.drop w.length with
   | [] => true
   | d :: _ => !is_word_char d)

def find_generic (cs : Str) : Option Str :=
  generic_words.find? (fun w => matches_word_at w cs)

/-- Left-to-right scan of `re.sub(r"\b(fiume|torrente|rio|canale|fosso)\b",
" ", text, flags=re.IGNORECASE)`.  `prevWord` records whether the previous
character is a word character (no `\b` at the current position).  The fuel is
the input length; each step consumes at least one character. -/
def strip_aux : Nat → Bool → Str → Str
  | 0, _, _ => []
  | _ + 1, _, [] => []
  | fuel + 1, prevWord, c :: rest =>
    match (if prevWord then none else find_generic (c :: rest)) with
    | some w => ' ' :: strip_aux fuel true (List.drop w.length (c :: rest))
    | none => c :: strip_aux fuel (is_word_char c) rest

/-- `re.sub(r"\s+", " ", text)`: collapse whitespace runs to single spaces. -/
def collapse_ws_aux : Bool → Str → Str
  | _, [] => []
  | prevGap, c :: rest =>
    if is_py_ws c then
      (if prevGap then collapse_ws_aux true rest else ' ' :: collapse_ws_aux true rest)
    else c :: collapse_ws_aux false rest

/-- `strip_generic_words` from src/streams.py: remove whole-word generic
nouns, collapse whitespace, strip. -/
def strip_generic_words (s : Str) : Str :=
  py_strip (collapse_ws_aux false (strip_aux s.length false s))

/-! ### select_stations_by_query (src/streams.py lines 115-141) -/

/-- A station record.  Only the fields read by the embedded core are kept;
`entry.get("nomestaz", "")` with a missing key is modelled by the empty
string, and the numeric JSON fields (value, thresholds) as optional
rationals. -/
structure Entry where
  nomestaz : Str
  value : Option Rat := none
  soglia1 : Option Rat := none
  soglia2 : Option Rat := none
  soglia3 : Option Rat := none
deriving DecidableEq, Repr

/-- Python substring containment `pat in hay`. -/
def str_contains (hay pat : Str) : Bool :=
  hay.tails.any (fun suf => pat.isPrefixOf suf)

/-- Python `cleaned.split(" ")`: split at every single space, keeping empty
pieces. -/
def split_sp : Str → List Str
  | [] => [[]]
  | c :: rest =>
    match split_sp rest with
    | [] => [[]]
    | h :: t => if c == ' ' then [] :: h :: t else (c :: h) :: t

/-- The token list the matcher computes from a raw query. -/
def tokens_of (query : Str) : List Str :=
  (split_sp (normalize_text (strip_generic_words query))).filter (fun t => !t.isEmpty)

/-- `score = sum(1 for token in tokens if token in name)`. -/
def entry_score (tokens : List Str) (e : Entry) : Nat :=
  tokens.countP (fun t => str_contains (normalize_text e.nomestaz) t)

/-- The `(score, entry)` pairs with positive score, in input order. -/
def scored_entries (tokens : List Str) (entries : List Entry) : List (Nat × Entry) :=
  entries.filterMap (fun e =>
    let score := entry_score tokens e
    if 0 < score then some (score, e) else none)

/-- Stable insertion for descending sort by score: the new element goes
before the first element whose score is not larger. -/
def insert_desc (p : Nat × Entry) : List (Nat × Entry) → List (Nat × Entry)
  | [] => [p]
  | q :: t => if q.1 ≤ p.1 then p :: q :: t else q :: insert_desc p t

/-- `scored.sort(key=lambda item: item[0], reverse=True)`: Python list.sort
is a stable sort, and `reverse=True` reverses comparisons without disturbing
equal elements; a stable descending insertion sort is extensionally the same
function. -/
def sort_desc : List (Nat × Entry) → List (Nat × Entry)
  | [] => []
  | a :: l => insert_desc a (sort_desc l)

/-- `select_stations_by_query` from src/streams.py. -/
def select_stations_by_query (entries : List Entry) (query : Str) :
    List Entry × List Entry :=
  let cleaned := normalize_text (strip_generic_words query)
  if cleaned.isEmpty then ([], [])
  else
    let tokens := (split_sp cleaned).filter (fun t => !t.isEmpty)
    let exact := entries.filter (fun e =>
      tokens.all (fun t => str_contains (normalize_text e.nomestaz) t))
    if !exact.isEmpty then (exact, [])
    else
      ([], ((sort_desc (scored_entries tokens entries)).take 5).map (fun p => p.2))

/-- The suggestions component of the matcher result. -/
def suggestions_of (entries : List Entry) (query : Str) : List Entry :=
  (select_stations_by_query entries query).2

example : select_stations_by_query [{ nomestaz := "Fiume Secchia a Lama".toList }]
    ("secchia".toList) = ([{ nomestaz := "Fiume Secchia a Lama".toList }], []) := by decide

example : select_stations_by_query
    [{ nomestaz := "Torrente Savio a Cesena".toList },
     { nomestaz := "Fiume Reno a Bastia".toList }]
    ("cesena marina".toList)
    = ([], [{ nomestaz := "Torrente Savio a Cesena".toList }]) := by decide

example : normalize_text ("È".toList) = "e".toList := by decide

/-! ### JSON values and json.loads (library model) -/

/-- A parsed JSON value (the result of `json.loads`).  Integer-syntax
numbers become Python ints; numbers with a fraction or exponent become
floats, kept as their source text (Python float repr normalization is not
modelled — no claim depends on it). -/
inductive Json where
  | null : Json
  | bool (b : Bool) : Json
  | int (n : Int) : Json
  | float (raw : Str) : Json
  | str (s : Str) : Json
  | arr (xs : List Json) : Json
  | obj (kvs : List (Str × Json)) : Json
deriving Repr

def lbrace : Char := Char.ofNat 123
def rbrace : Char := Char.ofNat 125
def squote : Char := Char.ofNat 39

/-- JSON whitespace (the characters skipped by the `json` module). -/
def is_json_ws (c : Char) : Bool :=
  c == ' ' || c == '\t' || c == '\n' || c == '\r'

def skip_ws (cs : Str) : Str := cs.dropWhile is_json_ws

def hex_val (c : Char) : Option Nat :=
  if c.isDigit then some (c.toNat - 48)
  else if decide ('a' ≤ c) && decide (c ≤ 'f') then some (c.toNat - 87)
  else if decide ('A' ≤ c) && decide (c ≤ 'F') then some (c.toNat - 77)
  else none

def hex4 (a b c d : Char) : Option Nat :=
  match hex_val a, hex_val b, hex_val c, hex_val d with
  | some x, some y, some z, some w => some (((x * 16 + y) * 16 + z) * 16 + w)
  | _, _, _, _ => none

/-- Parse the body of a JSON string after the opening quote.  Surrogate-pair
recombination is not modelled; an invalid scalar from `\uXXXX` becomes the
default character. -/
def parse_str_chars : Nat → Str → Option (Str × Str)
  | 0, _ => none
  | _ + 1, [] => none
  | fuel + 1, c :: rest =>
    if c == '"' then some ([], rest)
    else if c == '\\' then
      match rest with
      | [] => none
      | e :: r2 =>
        let esc : Option (Char × Str) :=
          if e == '"' then some ('"', r2)
          else if e == '\\' then some ('\\', r2)
          else if e == '/' then some ('/', r2)
          else if e == 'b' then some ('\x08', r2)
          else if e == 'f' then some ('\x0c', r2)
          else if e == 'n' then some ('\n', r2)
          else if e == 'r' then some ('\r', r2)
          else if e == 't' then some ('\t', r2)
          else if e == 'u' then
            match r2 with
            | a :: b :: c2 :: d :: r3 => (hex4 a b c2 d).map (fun n => (Char.ofNat n, r3))
            | _ => none
          else none
        match esc with
        | some (ch, r3) =>
          match parse_str_chars fuel r3 with
          | some (s, r4) => some (ch :: s, r4)
          | none => none
        | none => none
    else if c.toNat < 0x20 then none
    else
      match parse_str_chars fuel rest with
      | some (s, r) => some (c :: s, r)
      | none => none

def digits_to_nat (ds : Str) : Nat :=
  ds.foldl (fun a c => a * 10 + (c.toNat - 48)) 0

/-- Parse a JSON number (`-?(0|[1-9]\d*)(\.\d+)?([eE][+-]?\d+)?`).  Integer
syntax yields `Json.int`; otherwise the matched text is kept as a float. -/
def parse_num (cs : Str) : Option (Json × Str) :=
  let signed := match cs with | '-' :: t => (true, t) | _ => (false, cs)
  let neg := signed.1
  let cs1 := signed.2
  let ints := cs1.takeWhile Char.isDigit
  let rest1 := cs1.dropWhile Char.isDigit
  if ints.isEmpty then none
  else if decide (1 < ints.length) && (ints.headI == '0') then none
  else
    let fracPart : Option (Str × Str) :=
      match rest1 with
      | '.' :: r2 =>
        let fd := r2.takeWhile Char.isDigit
        if fd.isEmpty then none else some ('.' :: fd, r2.dropWhile Char.isDigit)
      | _ => some ([], rest1)
    match fracPart with
    | none => none
    | some (frac, rest2) =>
      let expPart : Option (Str × Str) :=
        match rest2 with
        | e :: r3 =>
          if e == 'e' || e == 'E' then
            let signedExp := match r3 with
              | s :: r4 => if s == '+' || s == '-' then ([e, s], r4) else ([e], r3)
              | [] => ([e], r3)
            let ed := signedExp.2.takeWhile Char.isDigit
            if ed.isEmpty then none
            else some (signedExp.1 ++ ed, signedExp.2.dropWhile Char.isDigit)
          else some ([], rest2)
        | [] => some ([], rest2)
      match expPart with
      | none => none
      | some (ex, rest3) =>
        if frac.isEmpty && ex.isEmpty then
          let n : Int := digits_to_nat ints
          some (Json.int (if neg then -n else n), rest3)
        else
          some (Json.float ((if neg then ['-'] else []) ++ ints ++ frac ++ ex), rest3)

mutual

/-- Recursive-descent JSON value parser (model of the stdlib `json`
scanner).  The fuel only bounds recursion; `json_parse` supplies enough for
any input. -/
def parse_value : Nat → Str → Option (Json × Str)
  | 0, _ => none
  | fuel + 1, cs0 =>
    let cs := skip_ws cs0
    match cs with
    | [] => none
    | c :: rest =>
      if c == '[' then
        let cs1 := skip_ws rest
        match cs1 with
        | ']' :: r2 => some (Json.arr [], r2)
        | _ =>
          match parse_arr_items fuel cs1 with
          | some (xs, r) => some (Json.arr xs, r)
          | none => none
      else if c == lbrace then
        let cs1 := skip_ws rest
        match cs1 with
        | [] => none
        | d :: r2 =>
          if d == rbrace then some (Json.obj [], r2)
          else
            match parse_obj_items fuel cs1 with
            | some (kvs, r) => some (Json.obj kvs, r)
            | none => none
      else if c == '"' then
        match parse_str_chars (rest.length + 1) rest with
        | some (s, r) => some (Json.str s, r)
        | none => none
      else if ("true".toList).isPrefixOf cs then some (Json.bool true, cs.drop 4)
      else if ("false".toList).isPrefixOf cs then some (Json.bool false, cs.drop 5)
      else if ("null".toList).isPrefixOf cs then some (Json.null, cs.drop 4)
      else if ("NaN".toList).isPrefixOf cs then some (Json.float ("nan".toList), cs.drop 3)
      else if ("Infinity".toList).isPrefixOf cs then
        some (Json.float ("inf".toList), cs.drop 8)
      else if ("-Infinity".toList).isPrefixOf cs then
        some (Json.float ("-inf".toList), cs.drop 9)
      else parse_num cs

/-- Comma-separated array items, positioned at the start of a value. -/
def parse_arr_items : Nat → Str → Option (List Json × Str)
  | 0, _ => none
  | fuel + 1, cs =>
    match parse_value fuel cs with
    | none => none
    | some (v, r) =>
      let r1 := skip_ws r
      match r1 with
      | ',' :: r2 =>
        match parse_arr_items fuel r2 with
        | some (vs, r3) => some (v :: vs, r3)
        | none => none
      | ']' :: r2 => some ([v], r2)
      | _ => none

/-- Comma-separated object members, positioned at a key. -/
def parse_obj_items : Nat → Str → Option (List (Str × Json) × Str)
  | 0, _ => none
  | fuel + 1, cs =>
    let cs1 := skip_ws cs
    match cs1 with
    | [] => none
    | c :: rest =>
      if c == '"' then
        match parse_str_chars (rest.length + 1) rest with
        | some (k, r) =>
          let r1 := skip_ws r
          match r1 with
          | ':' :: r2 =>
            match parse_value fuel r2 with
            | some (v, r3) =>
              let r4 := skip_ws r3
              match r4 with
              | [] => none
              | d :: r5 =>
                if d == ',' then
                  match parse_obj_items fuel r5 with
                  | some (kvs, r6) => some ((k, v) :: kvs, r6)
                  | none => none
                else if d == rbrace then some ([(k, v)], r5)
                else none
            | none => none
          | _ => none
        | none => none
      else none

end

/-- `json.loads`: parse one JSON value and require only whitespace after it. -/
def json_parse (s : Str) : Option Json :=
  match parse_value (4 * s.length + 16) s with
  | some (j, rest) => if (skip_ws rest).isEmpty then some j else none
  | none => none

example : json_parse ("[\"Stazione A\", \"Stazione B\"]".toList)
    = some (Json.arr [Json.str ("Stazione A".toList), Json.str ("Stazione B".toList)]) := by
  rfl

example : json_parse ("[1, -2.5, true, null]".toList)
    = some (Json.arr [Json.int 1, Json.float ("-2.5".toList), Json.bool true, Json.null]) := by
  rfl

example : json_parse ("here are results: [1]".toList) = none := by rfl

/-! ### _parse_json_array (src/streams.py lines 193-207) -/

/-- `re.search(r"\[[\s\S]*\]", text)` keeps the span from the first `[` that
has some `]` after it to the last `]` of the text (the Kleene star is
greedy).  Returns the prefix of `cs` ending at its last `]`. -/
def take_to_last_close (cs : Str) : Option Str :=
  if cs.contains ']' then
    some ((cs.reverse.dropWhile (fun c => !(c == ']'))).reverse)
  else none

def extract_bracket : Str → Option Str
  | [] => none
  | c :: rest =>
    if c == '[' then (take_to_last_close rest).map (fun t => '[' :: t)
    else extract_bracket rest

/-- `_parse_json_array` from src/streams.py: strict parse, else parse the
first greedy `[...]` span, else (or on a non-list value) the empty list.
Totality of this definition models the "never raise to the caller" policy. -/
def parse_json_array (text : Str) : List Json :=
  if text.isEmpty then []
  else
    match json_parse text with
    | some (Json.arr xs) => xs
    | some _ => []
    | none =>
      match extract_bracket text with
      | none => []
      | some sub =>
        match json_parse sub with
        | some (Json.arr xs) => xs
        | _ => []

/-! ### Python str() of parsed JSON values -/

mutual

/-- Python `repr` of a parsed JSON value (used for elements inside lists and
dicts).  String escaping and quote selection inside `repr` are simplified to
plain single quotes. -/
def py_repr : Json → Str
  | Json.null => "None".toList
  | Json.bool true => "True".toList
  | Json.bool false => "False".toList
  | Json.int n => (if n < 0 then ['-'] else []) ++ Nat.toDigits 10 n.natAbs
  | Json.float raw => raw
  | Json.str s => squote :: s ++ [squote]
  | Json.arr xs => '[' :: py_repr_list xs ++ [']']
  | Json.obj kvs => lbrace :: py_repr_kvs kvs ++ [rbrace]

def py_repr_list : List Json → Str
  | [] => []
  | [x] => py_repr x
  | x :: y :: t => py_repr x ++ ", ".toList ++ py_repr_list (y :: t)

def py_repr_kvs : List (Str × Json) → Str
  | [] => []
  | [kv] => (squote :: kv.1 ++ [squote]) ++ ": ".toList ++ py_repr kv.2
  | kv :: x :: t =>
    ((squote :: kv.1 ++ [squote]) ++ ": ".toList ++ py_repr kv.2) ++ ", ".toList ++
      py_repr_kvs (x :: t)

end

/-- Python `str()` of a parsed JSON value: like `repr`, except a string is
itself. -/
def py_str : Json → Str
  | Json.str s => s
  | Json.arr xs => '[' :: py_repr_list xs ++ [']']
  | Json.obj kvs => lbrace :: py_repr_kvs kvs ++ [rbrace]
  | j => py_repr j

example : py_str (Json.int (-12)) = "-12".toList := by rfl
example : py_str (Json.obj [("a".toList, Json.int 1)]) = "\x7b'a': 1\x7d".toList := by rfl

/-! ### Retrieval fallback (src/streams.py lines 144-276) -/

/-- The retrieval environment: the two configuration secrets as read by
`os.getenv` (absent modelled as the empty string, which is equally falsy),
and the transport outcome of the OpenAI HTTP request — `.ok body` for a
successful 200 response body, `.error ()` for any network/HTTP/auth failure
raised by `urlopen` or by the non-200 check. -/
structure REnv where
  apiKey : Str
  vectorStoreId : Str
  transport : Except Unit Str

/-- `_is_retrieval_enabled`: both secrets present and non-empty. -/
def is_retrieval_enabled (env : REnv) : Bool :=
  !env.apiKey.isEmpty && !env.vectorStoreId.isEmpty

/-- `_openai_create_response`: raises on a missing key, on transport
failure, and on a malformed JSON body (`json.loads(body)`); an empty body
yields the empty dict. -/
def openai_create_response (env : REnv) : Except Unit Json :=
  if env.apiKey.isEmpty then Except.error ()
  else
    match env.transport with
    | Except.error _ => Except.error ()
    | Except.ok body =>
      if body.isEmpty then Except.ok (Json.obj [])
      else
        match json_parse body with
        | some j => Except.ok j
        | none => Except.error ()

/-- Python `dict.get`: the last binding of a key wins. -/
def dict_get (kvs : List (Str × Json)) (key : Str) : Option Json :=
  kvs.foldl (fun acc kv => if kv.1 == key then some kv.2 else acc) none

/-- Is a float literal zero (all mantissa digits zero; `nan`/`inf` are
truthy)? -/
def float_raw_is_zero (raw : Str) : Bool :=
  if raw.any (fun c => c == 'n' || c == 'i' || c == 'a' || c == 'f') then false
  else
    (raw.takeWhile (fun c => !(c == 'e' || c == 'E'))).all
      (fun c => !(decide ('1' ≤ c) && decide (c ≤ '9')))

/-- Python truthiness of a parsed JSON value. -/
def py_truthy : Json → Bool
  | Json.null => false
  | Json.bool b => b
  | Json.int n => decide (n ≠ 0)
  | Json.float raw => !float_raw_is_zero raw
  | Json.str s => !s.isEmpty
  | Json.arr xs => !xs.isEmpty
  | Json.obj kvs => !kvs.isEmpty

/-- The inner loop of `_extract_output_text` over the parts of one message:
append `part["text"].strip()` for every `output_text` part with truthy text.
Iterating a non-dict part, or `.strip()` on a truthy non-string text, raises
(`.error ()`). -/
def gather_parts : List Json → Except Unit (List Str)
  | [] => Except.ok []
  | p :: rest =>
    match p with
    | Json.obj pkvs =>
      let isOutputText :=
        match dict_get pkvs ("type".toList) with
        | some (Json.str t) => t == "output_text".toList
        | _ => false
      let txt := (dict_get pkvs ("text".toList)).getD Json.null
      if isOutputText && py_truthy txt then
        match txt with
        | Json.str s =>
          match gather_parts rest with
          | Except.ok chunks => Except.ok (py_strip s :: chunks)
          | Except.error e => Except.error e
        | _ => Except.error ()
      else gather_parts rest
    | _ => Except.error ()

/-- The outer loop of `_extract_output_text` over `response["output"]`:
skip non-`message` items; `item.get("content", []) or []` replaces a falsy
content by the empty list; iterating a non-dict item or a truthy non-list
content raises. -/
def gather_chunks : List Json → Except Unit (List Str)
  | [] => Except.ok []
  | item :: rest =>
    match item with
    | Json.obj ikvs =>
      let isMessage :=
        match dict_get ikvs ("type".toList) with
        | some (Json.str t) => t == "message".toList
        | _ => false
      if isMessage then
        let contentRaw := (dict_get ikvs ("content".toList)).getD (Json.arr [])
        let content := if py_truthy contentRaw then contentRaw else Json.arr []
        match content with
        | Json.arr parts =>
          match gather_parts parts, gather_chunks rest with
          | Except.ok chunk, Except.ok more => Except.ok (chunk ++ more)
          | Except.error e, _ => Except.error e
          | _, Except.error e => Except.error e
        | _ => Except.error ()
      else gather_chunks rest
    | _ => Except.error ()

/-- `"\n".join(chunks)`. -/
def join_nl (chunks : List Str) : Str :=
  (List.intersperse ['\n'] chunks).flatten

/-- `_extract_output_text`: returns the joined, stripped `output_text`
chunks; a non-list (or missing) `output` yields the empty string; calling
`.get` on a non-dict response raises. -/
def extract_output_text (resp : Json) : Except Unit Str :=
  match resp with
  | Json.obj kvs =>
    match dict_get kvs ("output".toList) with
    | some (Json.arr items) =>
      match gather_chunks items with
      | Except.ok chunks => Except.ok (py_strip (join_nl chunks))
      | Except.error e => Except.error e
    | _ => Except.ok []
  | _ => Except.error ()

/-- `_retrieve_station_names`: gate on configuration, call the service,
extract and parse the text, stringify/trim/filter/truncate the items.  The
prompt built from `query`/`maxResults` only influences the transport
outcome, which is part of `REnv`. -/
def retrieve_station_names (env : REnv) (query : Str) (maxResults : Nat) :
    Except Unit (List Str) :=
  if !is_retrieval_enabled env then Except.ok []
  else
    match openai_create_response env with
    | Except.error e => Except.error e
    | Except.ok resp =>
      match extract_output_text resp with
      | Except.error e => Except.error e
      | Except.ok text =>
        Except.ok ((((parse_json_array text).map (fun it => py_strip (py_str it))).filter
          (fun n => !n.isEmpty)).take maxResults)

/-- `select_stations_by_query_with_retrieval`: local match first; skip
retrieval when local matches exist or retrieval is disabled; absorb every
retrieval exception; re-resolve retrieved names by exact normalized-name
membership; keep the local result when that yields nothing. -/
def select_stations_by_query_with_retrieval (env : REnv) (entries : List Entry)
    (query : Str) (maxResults : Nat) : List Entry × List Entry :=
  if !(select_stations_by_query entries query).1.isEmpty || !is_retrieval_enabled env then
    select_stations_by_query entries query
  else
    match retrieve_station_names env query maxResults with
    | Except.error _ => select_stations_by_query entries query
    | Except.ok retrievedNames =>
      if retrievedNames.isEmpty then select_stations_by_query entries query
      else
        if !(entries.filter (fun e =>
            (retrievedNames.map normalize_text).contains (normalize_text e.nomestaz))).isEmpty
        then
          (entries.filter (fun e =>
            (retrievedNames.map normalize_text).contains (normalize_text e.nomestaz)), [])
        else select_stations_by_query entries query

/-! ### Timestamp heuristic (src/streams.py lines 53-82) -/

/-- A naive `datetime` (microseconds are zeroed by the rounding before any
arithmetic, so they are not carried further). -/
structure DateTime where
  year : Int
  month : Nat
  day : Nat
  hour : Nat
  minute : Nat
  second : Nat
  micro : Nat
deriving DecidableEq, Repr

/-- Days since 1970-01-01 of a proleptic Gregorian civil date (the
days-from-civil algorithm used by every calendar library). -/
def days_from_civil (y : Int) (m d : Nat) : Int :=
  let yAdj := y - (if m ≤ 2 then 1 else 0)
  let era := Int.fdiv yAdj 400
  let yoe := yAdj - era * 400
  let mm : Int := m
  let doy := Int.ediv (153 * (mm + (if 2 < mm then -3 else 9)) + 2) 5 + (d : Int) - 1
  let doe := yoe * 365 + Int.ediv yoe 4 - Int.ediv yoe 100 + doy
  era * 146097 + doe - 719468

/-- The linearization of naive datetime arithmetic: seconds since the epoch
of the calendar fields, with no timezone applied.  `datetime ± timedelta` is
exactly addition on this value. -/
def to_naive_seconds (dt : DateTime) : Int :=
  days_from_civil dt.year dt.month dt.day * 86400 +
    (dt.hour : Int) * 3600 + (dt.minute : Int) * 60 + (dt.second : Int)

/-- The platform timezone environment: `time.daylight`, `time.timezone` and
`time.altzone` (seconds west of UTC), the `tm_isdst > 0` flag of
`time.localtime(time.mktime(dt.timetuple()))`, and the offset in seconds
that naive `datetime.timestamp()` adds to the naive seconds of its argument
(negative east of UTC). -/
structure TzEnv where
  daylight : Bool
  timezoneOff : Int
  altzoneOff : Int
  isDstLocal : DateTime → Bool
  tsOff : Int → Int

def jan_first (y : Int) : DateTime := ⟨y, 1, 1, 0, 0, 0, 0⟩

def jul_first (y : Int) : DateTime := ⟨y, 7, 1, 0, 0, 0, 0⟩

/-- `_timezone_offset_minutes`: `int(offset / 60)` truncates toward zero. -/
def timezone_offset_minutes (tz : TzEnv) (dt : DateTime) : Int :=
  Int.tdiv (if tz.isDstLocal dt && tz.daylight then tz.altzoneOff else tz.timezoneOff) 60

/-- `is_dst` from src/streams.py: the offset of `dt` is smaller than the
larger of the offsets of January 1 and July 1 of the same year. -/
def is_dst (tz : TzEnv) (dt : DateTime) : Bool :=
  decide (timezone_offset_minutes tz dt <
    max (timezone_offset_minutes tz (jan_first dt.year))
      (timezone_offset_minutes tz (jul_first dt.year)))

/-- `now.replace(minute=0 if now.minute < 31 else 30, second=0,
microsecond=0)`. -/
def round_half_hour (now : DateTime) : DateTime :=
  { now with minute := if now.minute < 31 then 0 else 30, second := 0, micro := 0 }

/-- `get_timestamp_ms` from src/streams.py: round down to the half hour,
subtract one hour when the heuristic says DST is active, add 30 minutes,
convert with the local offset, return milliseconds. -/
def get_timestamp_ms (tz : TzEnv) (now : DateTime) : Int :=
  let rounded := round_half_hour now
  let base := to_naive_seconds rounded
  let adjusted := if is_dst tz rounded then base - 3600 else base
  let final := adjusted + 1800
  (final + tz.tsOff final) * 1000

/-! ### Validation and output formatting (src/streams.py lines 103-112,
279-356) -/

/-- A value the MCP layer can hand to the `max_results` parameter (`bool`
must be tested before `int` because Python bools are ints; floats carry an
exact rational value, whose integrality is `float.is_integer`). -/
inductive MRArg where
  | vnone : MRArg
  | vbool (b : Bool) : MRArg
  | vint (n : Int) : MRArg
  | vfloat (q : Rat) : MRArg
deriving DecidableEq, Repr

def int_to_str (n : Int) : Str :=
  (if n < 0 then ['-'] else []) ++ Nat.toDigits 10 n.natAbs

def mr_type_msg : Str := "max_results must be an integer".toList

def mr_range_msg (minimum maximum : Int) : Str :=
  "max_results must be between ".toList ++ int_to_str minimum ++
    " and ".toList ++ int_to_str maximum

/-- `_normalize_max_results` from src/streams.py. -/
def normalize_max_results (value : MRArg) (minimum maximum : Int)
    (default : Option Int) : Except Str (Option Int) :=
  match value with
  | MRArg.vnone => Except.ok default
  | MRArg.vbool _ => Except.error mr_type_msg
  | MRArg.vint n =>
    if n < minimum || maximum < n then Except.error (mr_range_msg minimum maximum)
    else Except.ok (some n)
  | MRArg.vfloat q =>
    if q.den = 1 then
      if q.num < minimum || maximum < q.num then
        Except.error (mr_range_msg minimum maximum)
      else Except.ok (some q.num)
    else Except.error mr_type_msg

/-- Round half to even (the rounding of `format(x, ".2f")`, applied to the
exact rational; the binary-float representation error is not modelled). -/
def round_half_even (x : Rat) : Int :=
  let f := x.floor
  let r := x - (f : Rat)
  if r < 1 / 2 then f
  else if 1 / 2 < r then f + 1
  else if f % 2 = 0 then f else f + 1

/-- `f"{float(value):.2f}"`. -/
def fmt2 (q : Rat) : Str :=
  let n := round_half_even (q * 100)
  (if n < 0 then ['-'] else []) ++ Nat.toDigits 10 (n.natAbs / 100) ++
    ".".toList ++
    (List.replicate (2 - (Nat.toDigits 10 (n.natAbs % 100)).length) '0' ++
      Nat.toDigits 10 (n.natAbs % 100))

/-- `format_value` from src/streams.py, on the numeric-or-null values the
sensor payload carries. -/
def format_value : Option Rat → Str
  | none => "dato non disponibile".toList
  | some q => fmt2 q ++ " m".toList

/-- `f"{soglia or 0}"`: falsy (null or zero) thresholds print as the int 0;
a float threshold prints as its decimal expansion (Python float repr
shortest-form is approximated by a trimmed 10-digit expansion). -/
def soglia_str : Option Rat → Str
  | none => "0".toList
  | some q =>
    if q = 0 then "0".toList
    else if q.den = 1 then int_to_str q.num
    else
      let a : Rat := if q < 0 then -q else q
      let ip := a.floor
      let scaled := ((a - (ip : Rat)) * (10 ^ 10 : Rat)).floor.natAbs
      let digits := List.replicate (10 - (Nat.toDigits 10 scaled).length) '0' ++
        Nat.toDigits 10 scaled
      let trimmed := (digits.reverse.dropWhile (fun c => c == '0')).reverse
      (if q < 0 then ['-'] else []) ++ Nat.toDigits 10 ip.natAbs ++ ".".toList ++
        (if trimmed.isEmpty then "0".toList else trimmed)

/-- One line of `_format_stations_output`. -/
def entry_line (e : Entry) : Str :=
  "- ".toList ++ e.nomestaz ++ ": ".toList ++ format_value e.value ++
    " (soglie ".toList ++ soglia_str e.soglia1 ++ "/".toList ++
    soglia_str e.soglia2 ++ "/".toList ++ soglia_str e.soglia3 ++ ")".toList

/-- `_format_stations_output` from src/streams.py. -/
def format_stations_output (entries : List Entry) (maxResults : Option Int) : Str :=
  let limited := match maxResults with
    | some n => entries.take n.toNat
    | none => entries
  join_nl (limited.map entry_line)

/-- The inverse of `days_from_civil` (civil-from-days), for
`_isoformat_ms`. -/
def civil_from_days (z0 : Int) : Int × Int × Int :=
  let z := z0 + 719468
  let era := Int.fdiv z 146097
  let doe := z - era * 146097
  let yoe := Int.ediv (doe - Int.ediv doe 1460 + Int.ediv doe 36524 - Int.ediv doe 146096) 365
  let doy := doe - (365 * yoe + Int.ediv yoe 4 - Int.ediv yoe 100)
  let mp := Int.ediv (5 * doy + 2) 153
  let d := doy - Int.ediv (153 * mp + 2) 5 + 1
  let m := mp + (if mp < 10 then 3 else -9)
  (yoe + era * 400 + (if m ≤ 2 then 1 else 0), m, d)

def pad_digits (w n : Nat) : Str :=
  List.replicate (w - (Nat.toDigits 10 n).length) '0' ++ Nat.toDigits 10 n

/-- `_isoformat_ms` from src/streams.py: the UTC instant of an epoch
millisecond value, `isoformat(timespec="milliseconds")`, with `+00:00`
already replaced by `Z`. -/
def isoformat_ms (ms : Int) : Str :=
  let secs := Int.ediv ms 1000
  let msec := (Int.emod ms 1000).toNat
  let days := Int.ediv secs 86400
  let sod := (Int.emod secs 86400).toNat
  let ymd := civil_from_days days
  pad_digits 4 ymd.1.toNat ++ "-".toList ++ pad_digits 2 ymd.2.1.toNat ++ "-".toList ++
    pad_digits 2 ymd.2.2.toNat ++ "T".toList ++ pad_digits 2 (sod / 3600) ++ ":".toList ++
    pad_digits 2 (sod / 60 % 60) ++ ":".toList ++ pad_digits 2 (sod % 60) ++ ".".toList ++
    pad_digits 3 msec ++ "Z".toList

example : isoformat_ms 1704067200000 = "2024-01-01T00:00:00.000Z".toList := by rfl

/-! ### livello_idrometrico (src/streams.py lines 323-356) -/

/-- An exception escaping the tool body: a `ValueError` from input
validation, or a hard upstream failure from `fetch_sensor_values`. -/
inductive PyErr where
  | valueError (msg : Str) : PyErr
  | upstream : PyErr
deriving Repr

def fiume_required_msg : Str :=
  "Il parametro ".toList ++ [squote] ++ "fiume".toList ++ [squote] ++
    " è obbligatorio.".toList

def no_match_message (fiume : Str) (suggestions : List Entry) : Str :=
  let firstLine := "Nessuna stazione trovata per: \"".toList ++ fiume ++ "\".".toList
  if suggestions.isEmpty then firstLine
  else
    firstLine ++ ['\n'] ++ "Possibili stazioni vicine:".toList ++ ['\n'] ++
      join_nl (suggestions.map (fun e => "- ".toList ++ e.nomestaz))

def match_output_message (ts : Int) (fiume : Str) (found : List Entry)
    (maxResults : Option Int) : Str :=
  "Livello idrometrico (timestamp richiesta ".toList ++ isoformat_ms ts ++
    ") per \"".toList ++ fiume ++ "\":".toList ++ ['\n'] ++
    format_stations_output found maxResults

/-- The `livello_idrometrico` tool body.  `fiume = none` models a non-string
argument; the sensor fetch is a parameter whose network outcome is
independent of the validation (`fetch_sensor_values` itself computes the
timestamp from `tz`/`now` before the request). -/
def livello_idrometrico (tz : TzEnv) (now : DateTime) (renv : REnv)
    (fiume : Option Str) (maxResults : MRArg) (fetch : Except Unit (List Entry)) :
    Except PyErr Str :=
  match fiume with
  | none => Except.error (PyErr.valueError fiume_required_msg)
  | some f =>
    if (py_strip f).isEmpty then Except.error (PyErr.valueError fiume_required_msg)
    else
      match normalize_max_results maxResults 1 10 none with
      | Except.error m => Except.error (PyErr.valueError m)
      | Except.ok mr =>
        match fetch with
        | Except.error _ => Except.error PyErr.upstream
        | Except.ok data =>
          let ts := get_timestamp_ms tz now
          let entries := data.filter (fun e => !e.nomestaz.isEmpty)
          let retrievalLimit := min ((mr.getD 5).toNat) 5
          let res := select_stations_by_query_with_retrieval renv entries f retrievalLimit
          if res.1.isEmpty then Except.ok (no_match_message f res.2)
          else Except.ok (match_output_message ts f res.1 mr)

/-! ### Concrete environments used by witnesses and counterexamples -/

/-- A CET/CEST-like platform: standard offset UTC+1, DST offset UTC+2,
epoch conversion with a constant UTC+1 offset (a multiple of 30 minutes). -/
def cet_tz : TzEnv :=
  { daylight := true, timezoneOff := -3600, altzoneOff := -7200,
    isDstLocal := fun dt => decide (4 ≤ dt.month ∧ dt.month ≤ 9),
    tsOff := fun _ => -3600 }

/-- An Asia/Kathmandu-like platform: constant offset UTC+5:45 (20700
seconds), which is not a multiple of 30 minutes. -/
def ktm_tz : TzEnv :=
  { daylight := false, timezoneOff := -20700, altzoneOff := -20700,
    isDstLocal := fun _ => false, tsOff := fun _ => -20700 }

def test_now : DateTime := ⟨2024, 1, 15, 10, 15, 0, 0⟩

/-- A retrieval environment whose HTTP transport fails. -/
def c4_env : REnv :=
  { apiKey := "k".toList, vectorStoreId := "vs".toList, transport := Except.error () }

/-- A retrieval environment with the API key secret absent. -/
def c3_env : REnv :=
  { apiKey := [], vectorStoreId := "vs".toList, transport := Except.error () }

/-! ### C6 -/

/-- C6: daylight saving is considered active for a rounded timestamp exactly
when its UTC offset is smaller than the maximum of the offsets observed on
January 1 and July 1 of the same year, and when it is active one hour is
subtracted from the rounded timestamp before the final 30-minute addition
and epoch conversion. -/
theorem c6_dst_heuristic (tz : TzEnv) (dt : DateTime) (now : DateTime) :
    (is_dst tz dt = decide (timezone_offset_minutes tz dt <
        max (timezone_offset_minutes tz (jan_first dt.year))
          (timezone_offset_minutes tz (jul_first dt.year))))
    ∧ get_timestamp_ms tz now =
        (let rounded := round_half_hour now
         let adjusted := if is_dst tz rounded
           then to_naive_seconds rounded - 3600 else to_naive_seconds rounded
         let final := adjusted + 1800
         (final + tz.tsOff final) * 1000) :=
  ⟨rfl, rfl⟩

/-! ### C5 -/

/-- C5: the array parser tries a strict JSON parse first; on failure it
parses the first greedy bracketed span; when both fail or the value is not a
list it returns the empty list (and, being a total function, never raises);
on the documented malformed text the bracket-extraction path recovers the
two station names. -/
theorem c5_parse_json_array_fallback (text : Str) :
    (∀ xs, json_parse text = some (Json.arr xs) → parse_json_array text = xs)
    ∧ (∀ j, json_parse text = some j → (∀ xs, j ≠ Json.arr xs) →
        parse_json_array text = [])
    ∧ (json_parse text = none →
        parse_json_array text =
          (match extract_bracket text with
           | none => []
           | some sub =>
             match json_parse sub with
             | some (Json.arr xs) => xs
             | _ => []))
    ∧ parse_json_array ("here are results: [\"Stazione A\", \"Stazione B\"] thanks".toList)
        = [Json.str ("Stazione A".toList), Json.str ("Stazione B".toList)] := by
  refine ⟨?_, ?_, ?_, by rfl⟩
  · intro xs hx
    by_cases he : text.isEmpty
    · rw [List.isEmpty_iff] at he
      subst he
      exact Option.noConfusion hx
    · simp [parse_json_array, he, hx]
  · intro j hj hne
    by_cases he : text.isEmpty
    · simp [parse_json_array, he]
    · cases j with
      | null => simp [parse_json_array, he, hj]
      | bool b => simp [parse_json_array, he, hj]
      | int n => simp [parse_json_array, he, hj]
      | float raw => simp [parse_json_array, he, hj]
      | str s => simp [parse_json_array, he, hj]
      | arr xs => exact absurd rfl (hne xs)
      | obj kvs => simp [parse_json_array, he, hj]
  · intro hn
    by_cases he : text.isEmpty
    · rw [List.isEmpty_iff] at he
      subst he
      rfl
    · simp [parse_json_array, he, hn]

/-- C5 witness: the strict-parse branch of the theorem applied to a concrete
input. -/
theorem c5_witness : parse_json_array ("[1]".toList) = [Json.int 1] :=
  (c5_parse_json_array_fallback ("[1]".toList)).1 [Json.int 1] rfl

/-! ### C10 -/

/-- C10: whenever retrieval is enabled, the HTTP call succeeds and text
extraction succeeds, the candidate list is exactly the parsed array items
converted with `str()` and trimmed, with only empty-after-trim entries
dropped and the list truncated to the result cap — so non-string items are
kept as their string representations. -/
theorem c10_candidate_names (env : REnv) (query : Str) (maxResults : Nat)
    {resp : Json} {text : Str}
    (hen : is_retrieval_enabled env = true)
    (hresp : openai_create_response env = Except.ok resp)
    (htext : extract_output_text resp = Except.ok text) :
    retrieve_station_names env query maxResults =
      Except.ok ((((parse_json_array text).map (fun it => py_strip (py_str it))).filter
        (fun n => !n.isEmpty)).take maxResults) := by
  simp [retrieve_station_names, hen, hresp, htext]

/-- A successful retrieval transport whose text payload is the mixed array
`[1, true, " x ", "", null]`. -/
def c10_env : REnv :=
  { apiKey := "k".toList, vectorStoreId := "vs".toList,
    transport := Except.ok
      ("\x7b\"output\": [\x7b\"type\": \"message\", \"content\": [\x7b\"type\": \"output_text\", \"text\": \"[1, true, \\\" x \\\", \\\"\\\", null]\"\x7d]\x7d]\x7d".toList) }

/-- C10 witness: the number, boolean and null survive as "1", "True" and
"None"; the blank string is dropped. -/
theorem c10_witness :
    retrieve_station_names c10_env ("secchia".toList) 5 =
      Except.ok ["1".toList, "True".toList, "x".toList, "None".toList] := by
  have h := c10_candidate_names c10_env ("secchia".toList) 5 rfl rfl rfl
  rw [h]
  rfl

/-! ### C3 -/

/-- C3: the orchestrator returns the local result unchanged whenever local
matches are non-empty or either retrieval secret is absent; and in every
case the final result either equals the local result or replaces an empty
local `matches` with non-empty retrieval matches and empty suggestions. -/
theorem c3_orchestrator_invariant (env : REnv) (entries : List Entry) (query : Str)
    (maxResults : Nat) :
    ((select_stations_by_query entries query).1 ≠ [] ∨ env.apiKey = [] ∨
        env.vectorStoreId = [] →
      select_stations_by_query_with_retrieval env entries query maxResults =
        select_stations_by_query entries query)
    ∧ (select_stations_by_query_with_retrieval env entries query maxResults =
          select_stations_by_query entries query
       ∨ ((select_stations_by_query entries query).1 = []
          ∧ (select_stations_by_query_with_retrieval env entries query maxResults).1 ≠ []
          ∧ (select_stations_by_query_with_retrieval env entries query maxResults).2 = [])) := by
  constructor
  · intro h
    have hcond : (!(select_stations_by_query entries query).1.isEmpty ||
        !is_retrieval_enabled env) = true := by
      rcases h with h | h | h
      · simp [List.isEmpty_iff, h]
      · simp [is_retrieval_enabled, h]
      · simp [is_retrieval_enabled, h]
    unfold select_stations_by_query_with_retrieval
    rw [if_pos hcond]
  · unfold select_stations_by_query_with_retrieval
    split
    · left
      rfl
    · rename_i hcond
      have h1 : (select_stations_by_query entries query).1 = [] := by
        rw [Bool.or_eq_true, not_or] at hcond
        simpa [List.isEmpty_iff] using hcond.1
      split
      · left
        rfl
      · split
        · left
          rfl
        · split
          · rename_i hf
            right
            refine ⟨h1, ?_, rfl⟩
            simpa [List.isEmpty_iff] using hf
          · left
            rfl

/-- C3 witness: with the API key absent the orchestrator is the local
matcher. -/
theorem c3_witness :
    select_stations_by_query_with_retrieval c3_env [] ("reno".toList) 5 =
      select_stations_by_query [] ("reno".toList) :=
  (c3_orchestrator_invariant c3_env [] ("reno".toList) 5).1 (Or.inr (Or.inl rfl))

/-! ### C4 -/

/-- C4 counterexample: with both secrets present and a failing transport,
`_retrieve_station_names` itself propagates the failure instead of
degrading to an empty candidate sequence (the absorption happens only in
the orchestrator). -/
theorem c4_counterexample :
    retrieve_station_names c4_env ("secchia".toList) 5 = Except.error () ∧
    retrieve_station_names c4_env ("secchia".toList) 5 ≠ Except.ok [] :=
  ⟨rfl, fun h => Except.noConfusion h⟩

/-- C4 (amended): any failure escaping the retrieval helper is caught by the
orchestrator, whose result then equals the pre-retrieval local result — as
it also does when retrieval yields no candidates; a response text that is
not a JSON array is absorbed inside the helper as an empty candidate list.
A retrieval failure therefore never surfaces to the caller. -/
theorem c4_failure_absorption (env : REnv) (entries : List Entry) (query : Str)
    (maxResults : Nat) :
    (∀ e, retrieve_station_names env query maxResults = Except.error e →
      select_stations_by_query_with_retrieval env entries query maxResults =
        select_stations_by_query entries query)
    ∧ (retrieve_station_names env query maxResults = Except.ok [] →
      select_stations_by_query_with_retrieval env entries query maxResults =
        select_stations_by_query entries query)
    ∧ (∀ resp text, openai_create_response env = Except.ok resp →
        extract_output_text resp = Except.ok text → parse_json_array text = [] →
        retrieve_station_names env query maxResults = Except.ok []) := by
  refine ⟨?_, ?_, ?_⟩
  · intro e he
    unfold select_stations_by_query_with_retrieval
    split
    · rfl
    · rw [he]
  · intro he
    unfold select_stations_by_query_with_retrieval
    split
    · rfl
    · rw [he]
      rfl
  · intro resp text hresp htext hparse
    by_cases hen : is_retrieval_enabled env
    · simp [retrieve_station_names, hen, hresp, htext, hparse]
    · simp [retrieve_station_names, hen]

/-- C4 witness: the transport failure of `c4_env` is absorbed and the
orchestrator returns the local result. -/
theorem c4_witness :
    select_stations_by_query_with_retrieval c4_env [] ("secchia".toList) 5 =
      select_stations_by_query [] ("secchia".toList) :=
  (c4_failure_absorption c4_env [] ("secchia".toList) 5).1 () rfl

/-! ### C9 -/

/-- C9: an absent or blank query string, or a result-count argument that is
boolean, non-integral, or out of the 1..10 range, makes the tool raise a
ValueError synchronously, independently of the upstream fetch outcome (the
fetch is never consulted). -/
theorem c9_validation (tz : TzEnv) (now : DateTime) (renv : REnv)
    (fiume : Option Str) (maxResults : MRArg)
    (h : fiume = none ∨ (∃ f, fiume = some f ∧ py_strip f = [])
       ∨ ∃ m, normalize_max_results maxResults 1 10 none = Except.error m) :
    ∃ msg, ∀ fetch, livello_idrometrico tz now renv fiume maxResults fetch =
      Except.error (PyErr.valueError msg) := by
  rcases h with h | ⟨f, hf, hs⟩ | ⟨m, hm⟩
  · exact ⟨fiume_required_msg, fun fetch => by simp [livello_idrometrico, h]⟩
  · subst hf
    exact ⟨fiume_required_msg, fun fetch => by simp [livello_idrometrico, hs]⟩
  · cases fiume with
    | none => exact ⟨fiume_required_msg, fun fetch => rfl⟩
    | some f =>
      by_cases hemp : (py_strip f).isEmpty
      · exact ⟨fiume_required_msg, fun fetch => by simp [livello_idrometrico, hemp]⟩
      · exact ⟨m, fun fetch => by simp [livello_idrometrico, hemp, hm]⟩

/-- C9 witness: a blank query raises before any fetch, whatever the fetch
outcome would have been. -/
theorem c9_witness :
    ∃ msg, ∀ fetch, livello_idrometrico cet_tz test_now c4_env (some (" ".toList))
      MRArg.vnone fetch = Except.error (PyErr.valueError msg) :=
  c9_validation cet_tz test_now c4_env (some (" ".toList)) MRArg.vnone
    (Or.inr (Or.inl ⟨" ".toList, rfl, rfl⟩))

/-! ### C7 -/

/-- C7 counterexample: on a platform whose UTC offset is not a multiple of
30 minutes (UTC+5:45), the returned epoch-millisecond value is not aligned
to a 0- or 30-minute boundary. -/
theorem c7_counterexample :
    ¬ Int.emod (get_timestamp_ms ktm_tz test_now) 1800000 = 0 := by decide

/-- C7 (amended): the query timestamp is the input rounded down to the
half-hour boundary (minute 0 below 31, else 30; seconds and sub-seconds
zeroed), and whenever the platform epoch-conversion offset is a whole
multiple of 30 minutes the returned epoch-millisecond value is aligned to a
0- or 30-minute boundary. -/
theorem c7_rounding_alignment (tz : TzEnv) (now : DateTime)
    (hoff : ∀ t, Int.emod (tz.tsOff t) 1800 = 0) :
    round_half_hour now = { now with
      minute := (if now.minute < 31 then 0 else 30),
      second := 0, micro := 0 }
    ∧ Int.emod (get_timestamp_ms tz now) 1800000 = 0 := by
  refine ⟨rfl, ?_⟩
  have hsec : ∀ dt : DateTime, dt.minute = 0 ∨ dt.minute = 30 → dt.second = 0 →
      (1800 : Int) ∣ to_naive_seconds dt := by
    intro dt hm hs
    unfold to_naive_seconds
    rw [hs]
    refine dvd_add (dvd_add (dvd_add ?_ ?_) ?_) ?_
    · exact Dvd.dvd.mul_left (by norm_num) _
    · exact Dvd.dvd.mul_left (by norm_num) _
    · rcases hm with h | h <;> rw [h] <;> norm_num
    · norm_num
  have hbase : (1800 : Int) ∣ to_naive_seconds (round_half_hour now) := by
    refine hsec _ ?_ rfl
    by_cases h : now.minute < 31
    · left
      simp [round_half_hour, h]
    · right
      simp [round_half_hour, h]
  have hadj : (1800 : Int) ∣
      (if is_dst tz (round_half_hour now) then
        to_naive_seconds (round_half_hour now) - 3600
      else to_naive_seconds (round_half_hour now)) := by
    by_cases h : is_dst tz (round_half_hour now)
    · rw [if_pos h]
      exact dvd_sub hbase (by norm_num)
    · rw [if_neg h]
      exact hbase
  have hfin : (1800 : Int) ∣
      ((if is_dst tz (round_half_hour now) then
          to_naive_seconds (round_half_hour now) - 3600
        else to_naive_seconds (round_half_hour now)) + 1800) :=
    dvd_add hadj dvd_rfl
  obtain ⟨k, hk⟩ := dvd_add hfin (Int.dvd_of_emod_eq_zero (hoff
    ((if is_dst tz (round_half_hour now) then
        to_naive_seconds (round_half_hour now) - 3600
      else to_naive_seconds (round_half_hour now)) + 1800)))
  have hg : get_timestamp_ms tz now =
      (((if is_dst tz (round_half_hour now) then
          to_naive_seconds (round_half_hour now) - 3600
        else to_naive_seconds (round_half_hour now)) + 1800) +
       tz.tsOff ((if is_dst tz (round_half_hour now) then
          to_naive_seconds (round_half_hour now) - 3600
        else to_naive_seconds (round_half_hour now)) + 1800)) * 1000 := rfl
  rw [hg, hk]
  exact Int.emod_eq_zero_of_dvd ⟨k, by ring⟩

/-- C7 witness: on the CET-like platform the result is half-hour aligned. -/
theorem c7_witness :
    round_half_hour test_now = { test_now with minute := 0, second := 0, micro := 0 }
    ∧ Int.emod (get_timestamp_ms cet_tz test_now) 1800000 = 0 := by
  have h := c7_rounding_alignment cet_tz test_now (fun _ => rfl)
  exact ⟨h.1, h.2⟩

/-! ### C8: idempotence machinery.  `NormedStr` characterizes the image of
`normalize_text`: only lowercase alphanumerics and single separating
spaces. -/

def norm_atom (c : Char) : Bool := is_lower_alnum c || decide (c = ' ')

def no_two_spaces (x y : Char) : Prop := ¬(x = ' ' ∧ y = ' ')

def NormedStr (l : Str) : Prop :=
  (∀ c ∈ l, norm_atom c = true) ∧ l.Chain' no_two_spaces ∧
    l.head? ≠ some ' ' ∧ l.getLast? ≠ some ' '

lemma alnum_toNat {c : Char} (h : is_lower_alnum c = true) :
    (97 ≤ c.toNat ∧ c.toNat ≤ 122) ∨ (48 ≤ c.toNat ∧ c.toNat ≤ 57) := by
  unfold is_lower_alnum at h
  simp only [decide_eq_true_eq] at h
  rcases h with ⟨h1, h2⟩ | ⟨h1, h2⟩
  · exact Or.inl ⟨Char.le_def.mp h1, Char.le_def.mp h2⟩
  · exact Or.inr ⟨Char.le_def.mp h1, Char.le_def.mp h2⟩

lemma alnum_ne_space {c : Char} (h : is_lower_alnum c = true) : c ≠ ' ' := by
  intro he
  subst he
  exact absurd h (by decide)

lemma atom_ne_space_alnum {c : Char} (h : norm_atom c = true) (hne : c ≠ ' ') :
    is_lower_alnum c = true := by
  unfold norm_atom at h
  simp only [Bool.or_eq_true, decide_eq_true_eq] at h
  tauto

lemma atom_toNat {c : Char} (h : norm_atom c = true) : c.toNat ≤ 122 := by
  by_cases hne : c = ' '
  · subst hne
    decide
  · rcases alnum_toNat (atom_ne_space_alnum h hne) with ⟨_, h2⟩ | ⟨_, h2⟩ <;> omega

lemma alnum_not_py_ws {c : Char} (h : is_lower_alnum c = true) : is_py_ws c = false := by
  unfold is_py_ws
  simp only [decide_eq_false_iff_not]
  intro hw
  rcases hw with rfl | rfl | rfl | rfl | rfl | rfl <;> exact absurd h (by decide)

lemma atom_not_py_ws {c : Char} (h : norm_atom c = true) (hne : c ≠ ' ') :
    is_py_ws c = false :=
  alnum_not_py_ws (atom_ne_space_alnum h hne)

lemma nfd_char_atom {c : Char} (h : norm_atom c = true) : nfd_char c = [c] := by
  unfold nfd_char
  rw [if_pos]
  have := atom_toNat h
  omega

lemma mark_atom {c : Char} (h : norm_atom c = true) : is_combining_mark c = false := by
  unfold is_combining_mark
  simp only [decide_eq_false_iff_not, not_and]
  intro h1
  have := atom_toNat h
  omega

lemma py_lower_atom {c : Char} (h : norm_atom c = true) : py_lower c = c := by
  have hA : ¬('A' ≤ c ∧ c ≤ 'Z') := by
    rintro ⟨h1, h2⟩
    have t1 : 65 ≤ c.toNat := Char.le_def.mp h1
    have t2 : c.toNat ≤ 90 := Char.le_def.mp h2
    by_cases hne : c = ' '
    · subst hne
      exact absurd t1 (by decide)
    · rcases alnum_toNat (atom_ne_space_alnum h hne) with ⟨a1, a2⟩ | ⟨a1, a2⟩ <;> omega
  have hB : ¬(0xC0 ≤ c.toNat ∧ c.toNat ≤ 0xDE ∧ c.toNat ≠ 0xD7) := by
    rintro ⟨h1, _⟩
    have := atom_toNat h
    omega
  unfold py_lower
  rw [if_neg hA, if_neg hB]

lemma collapse_aux_mem : ∀ (l : Str) (b : Bool), ∀ c ∈ collapse_aux b l, norm_atom c = true := by
  intro l
  induction l with
  | nil => intro b c hc; simp [collapse_aux] at hc
  | cons a rest ih =>
    intro b c hc
    simp only [collapse_aux] at hc
    by_cases ha : is_lower_alnum a = true
    · rw [if_pos ha] at hc
      rcases List.mem_cons.mp hc with rfl | hc
      · unfold norm_atom
        simp [ha]
      · exact ih false c hc
    · rw [if_neg ha] at hc
      cases b with
      | true =>
        have hc2 : c ∈ collapse_aux true rest := by simpa using hc
        exact ih true c hc2
      | false =>
        rw [if_neg Bool.false_ne_true] at hc
        rcases List.mem_cons.mp hc with rfl | hc
        · decide
        · exact ih true c hc

lemma collapse_aux_head_true : ∀ l : Str, (collapse_aux true l).head? ≠ some ' ' := by
  intro l
  induction l with
  | nil => simp [collapse_aux]
  | cons a rest ih =>
    simp only [collapse_aux]
    by_cases ha : is_lower_alnum a = true
    · rw [if_pos ha]
      simp only [List.head?_cons, ne_eq, Option.some.injEq]
      exact alnum_ne_space ha
    · rw [if_neg ha]
      simpa using ih

lemma collapse_aux_chain : ∀ (l : Str) (b : Bool),
    (collapse_aux b l).Chain' no_two_spaces := by
  intro l
  induction l with
  | nil => intro b; simp [collapse_aux]
  | cons a rest ih =>
    intro b
    simp only [collapse_aux]
    by_cases ha : is_lower_alnum a = true
    · rw [if_pos ha, List.chain'_cons']
      refine ⟨?_, ih false⟩
      rintro y _ ⟨h1, _⟩
      exact alnum_ne_space ha h1
    · rw [if_neg ha]
      cases b with
      | true =>
        simpa using ih true
      | false =>
        rw [if_neg Bool.false_ne_true, List.chain'_cons']
        refine ⟨?_, ih true⟩
        rintro y hy ⟨_, h2⟩
        exact collapse_aux_head_true rest (by rw [Option.mem_def.mp hy, h2])

lemma head?_dropWhile_not (p : Char → Bool) :
    ∀ l : Str, ∀ c, (l.dropWhile p).head? = some c → p c = false := by
  intro l
  induction l with
  | nil => intro c hc; simp at hc
  | cons a rest ih =>
    intro c hc
    rw [List.dropWhile_cons] at hc
    by_cases hp : p a = true
    · rw [if_pos hp] at hc
      exact ih c hc
    · rw [if_neg hp] at hc
      have heq : a = c := by simpa using hc
      subst heq
      cases hb : p a with
      | true => exact absurd hb hp
      | false => rfl

lemma chain'_dropWhile {R : Char → Char → Prop} (p : Char → Bool) :
    ∀ l : Str, l.Chain' R → (l.dropWhile p).Chain' R := by
  intro l
  induction l with
  | nil => exact fun h => h
  | cons a rest ih =>
    intro h
    rw [List.dropWhile_cons]
    by_cases hp : p a = true
    · rw [if_pos hp]
      exact ih h.tail
    · rw [if_neg hp]
      exact h

lemma getLast?_dropWhile (p : Char → Bool) :
    ∀ l : Str, l.dropWhile p = [] ∨ (l.dropWhile p).getLast? = l.getLast? := by
  intro l
  induction l with
  | nil => exact Or.inl rfl
  | cons a rest ih =>
    rw [List.dropWhile_cons]
    by_cases hp : p a = true
    · rw [if_pos hp]
      rcases hrest : rest with _ | ⟨b, t⟩
      · exact Or.inl rfl
      · rw [← hrest]
        rcases ih with h | h
        · exact Or.inl h
        · right
          rw [h, hrest, List.getLast?_cons_cons]
    · rw [if_neg hp]
      exact Or.inr rfl

lemma dropWhile_eq_self_of_head (p : Char → Bool) :
    ∀ l : Str, (∀ c, l.head? = some c → p c = false) → l.dropWhile p = l := by
  intro l h
  cases l with
  | nil => rfl
  | cons a rest =>
    rw [List.dropWhile_cons, h a rfl]
    simp

lemma no_two_spaces_symm {x y : Char} (h : no_two_spaces x y) : no_two_spaces y x :=
  fun ⟨h1, h2⟩ => h ⟨h2, h1⟩

lemma normed_py_strip {l : Str} (ha : ∀ c ∈ l, norm_atom c = true)
    (hc : l.Chain' no_two_spaces) : NormedStr (py_strip l) := by
  unfold py_strip
  have hmemu : ∀ c ∈ l.dropWhile is_py_ws, c ∈ l :=
    fun c hc2 => (List.dropWhile_sublist _).mem hc2
  have hmemv : ∀ c ∈ ((l.dropWhile is_py_ws).reverse.dropWhile is_py_ws).reverse, c ∈ l := by
    intro c hc2
    rw [List.mem_reverse] at hc2
    have h2 := (List.dropWhile_sublist _).mem hc2
    rw [List.mem_reverse] at h2
    exact hmemu c h2
  have hcu : (l.dropWhile is_py_ws).Chain' no_two_spaces := chain'_dropWhile _ l hc
  have hcur : (l.dropWhile is_py_ws).reverse.Chain' no_two_spaces := by
    rw [List.chain'_reverse]
    exact hcu.imp (fun _ _ h => no_two_spaces_symm h)
  have hcv : ((l.dropWhile is_py_ws).reverse.dropWhile is_py_ws).Chain' no_two_spaces :=
    chain'_dropWhile _ _ hcur
  have hcvr : ((l.dropWhile is_py_ws).reverse.dropWhile is_py_ws).reverse.Chain'
      no_two_spaces := by
    rw [List.chain'_reverse]
    exact hcv.imp (fun _ _ h => no_two_spaces_symm h)
  refine ⟨fun c hc2 => ha c (hmemv c hc2), hcvr, ?_, ?_⟩
  · rw [List.head?_reverse]
    rcases getLast?_dropWhile is_py_ws (l.dropWhile is_py_ws).reverse with h | h
    · rw [h]
      simp
    · rw [h, List.getLast?_reverse]
      intro he
      have := head?_dropWhile_not is_py_ws l ' ' he
      exact absurd this (by decide)
  · rw [List.getLast?_reverse]
    intro he
    have := head?_dropWhile_not is_py_ws (l.dropWhile is_py_ws).reverse ' ' he
    exact absurd this (by decide)

/-- The output of `normalize_text` is a normalized string. -/
lemma normed_normalize_text (s : Str) : NormedStr (normalize_text s) :=
  normed_py_strip (collapse_aux_mem _ false) (collapse_aux_chain _ false)

lemma flatten_nfd_id {l : Str} (h : ∀ c ∈ l, norm_atom c = true) :
    (l.map nfd_char).flatten = l := by
  induction l with
  | nil => rfl
  | cons a rest ih =>
    simp only [List.map_cons, List.flatten_cons]
    rw [nfd_char_atom (h a (List.mem_cons_self a rest)),
      ih (fun c hc => h c (List.mem_cons_of_mem _ hc))]
    rfl

lemma filter_marks_id {l : Str} (h : ∀ c ∈ l, norm_atom c = true) :
    l.filter (fun c => !is_combining_mark c) = l := by
  rw [List.filter_eq_self]
  intro c hc
  rw [mark_atom (h c hc)]
  rfl

lemma map_lower_id {l : Str} (h : ∀ c ∈ l, norm_atom c = true) : l.map py_lower = l := by
  induction l with
  | nil => rfl
  | cons a rest ih =>
    simp only [List.map_cons]
    rw [py_lower_atom (h a (List.mem_cons_self a rest)),
      ih (fun c hc => h c (List.mem_cons_of_mem _ hc))]

lemma collapse_aux_id : ∀ l : Str, (∀ c ∈ l, norm_atom c = true) →
    l.Chain' no_two_spaces →
    collapse_aux false l = l ∧ (l.head? ≠ some ' ' → collapse_aux true l = l) := by
  intro l
  induction l with
  | nil => exact fun _ _ => ⟨rfl, fun _ => rfl⟩
  | cons a rest ih =>
    intro ha hc
    have iha := ih (fun c hc2 => ha c (List.mem_cons_of_mem _ hc2)) hc.tail
    by_cases hsp : a = ' '
    · subst hsp
      constructor
      · simp only [collapse_aux]
        rw [if_neg (by decide), if_neg Bool.false_ne_true]
        congr 1
        apply iha.2
        cases hrest : rest with
        | nil => simp
        | cons b t =>
          subst hrest
          rw [List.chain'_cons] at hc
          simp only [List.head?_cons, ne_eq, Option.some.injEq]
          intro he
          exact hc.1 ⟨rfl, he⟩
      · intro hh
        exact absurd rfl hh
    · have halnum := atom_ne_space_alnum (ha a (List.mem_cons_self _ _)) hsp
      constructor
      · simp only [collapse_aux]
        rw [if_pos halnum, iha.1]
      · intro _
        simp only [collapse_aux]
        rw [if_pos halnum, iha.1]

lemma py_strip_id {l : Str} (ha : ∀ c ∈ l, norm_atom c = true)
    (hh : l.head? ≠ some ' ') (hl : l.getLast? ≠ some ' ') : py_strip l = l := by
  have hstep : ∀ m : Str, (∀ c ∈ m, norm_atom c = true) → m.head? ≠ some ' ' →
      m.dropWhile is_py_ws = m := by
    intro m hm hmh
    apply dropWhile_eq_self_of_head
    intro c hcm
    have hmem : c ∈ m := List.mem_of_mem_head? (Option.mem_def.mpr hcm)
    have hne : c ≠ ' ' := by
      intro he
      subst he
      exact hmh hcm
    exact atom_not_py_ws (hm c hmem) hne
  unfold py_strip
  rw [hstep l ha hh,
    hstep l.reverse (fun c hc => ha c (List.mem_reverse.mp hc))
      (by rw [List.head?_reverse]; exact hl),
    List.reverse_reverse]

lemma normalize_of_normed {l : Str} (h : NormedStr l) : normalize_text l = l := by
  obtain ⟨ha, hc, hh, hl⟩ := h
  unfold normalize_text
  rw [flatten_nfd_id ha, filter_marks_id ha, map_lower_id ha, (collapse_aux_id l ha hc).1,
    py_strip_id ha hh hl]

/-! ### C8 -/

/-- C8: `normalize_text` is idempotent — normalizing an already-normalized
string returns it unchanged — and it strips diacritics, in particular
mapping `"È"` to `"e"`. -/
theorem c8_normalize_idempotent (s : Str) :
    normalize_text (normalize_text s) = normalize_text s
    ∧ normalize_text ("È".toList) = "e".toList :=
  ⟨normalize_of_normed (normed_normalize_text s), by decide⟩

/-! ### C1 -/

lemma split_sp_ne_nil : ∀ l : Str, split_sp l ≠ [] := by
  intro l
  induction l with
  | nil => simp [split_sp]
  | cons c rest ih =>
    rcases hsp : split_sp rest with _ | ⟨h, t⟩
    · exact absurd hsp ih
    · simp only [split_sp, hsp]
      by_cases hc : (c == ' ') = true
      · rw [if_pos hc]
        simp
      · rw [if_neg hc]
        simp

lemma tokens_nil_iff : ∀ l : Str,
    ((split_sp l).filter (fun t => !t.isEmpty) = [] ↔ ∀ c ∈ l, c = ' ') := by
  intro l
  induction l with
  | nil => simp [split_sp]
  | cons c rest ih =>
    rcases hsp : split_sp rest with _ | ⟨h, t⟩
    · exact absurd hsp (split_sp_ne_nil rest)
    · by_cases hc : (c == ' ') = true
      · have hc' : c = ' ' := by simpa using hc
        subst hc'
        have heq : (split_sp (' ' :: rest)).filter (fun t => !t.isEmpty)
            = (split_sp rest).filter (fun t => !t.isEmpty) := by
          simp [split_sp, hsp]
        rw [heq, ih]
        simp
      · have hc' : c ≠ ' ' := by simpa using hc
        constructor
        · intro hfilter
          exfalso
          have hmem : (c :: h) ∈ (split_sp (c :: rest)).filter (fun t => !t.isEmpty) := by
            simp [split_sp, hsp, hc]
          rw [hfilter] at hmem
          exact absurd hmem (List.not_mem_nil _)
        · intro hall
          exact absurd (hall c (List.mem_cons_self _ _)) hc'

/-- With a non-empty cleaned query, `matches` is exactly the entries whose
normalized name contains every token. -/
lemma select_fst_eq (entries : List Entry) (query : Str)
    (hcl : normalize_text (strip_generic_words query) ≠ []) :
    (select_stations_by_query entries query).1 =
      entries.filter (fun e => (tokens_of query).all
        (fun t => str_contains (normalize_text e.nomestaz) t)) := by
  simp only [select_stations_by_query]
  rw [if_neg (by simpa [List.isEmpty_iff] using hcl)]
  split
  · rfl
  · rename_i hm
    have hm2 := (by simpa [List.isEmpty_iff] using hm :
      List.filter (fun e =>
        ((split_sp (normalize_text (strip_generic_words query))).filter
          (fun t => !t.isEmpty)).all
            (fun t => str_contains (normalize_text e.nomestaz) t)) entries = [])
    exact hm2.symm

/-- C1: an entry is returned in `matches` exactly when every token of the
stripped-and-normalized query is a substring of its normalized name (in
input order, via `filter`); a query with no tokens matches nothing and
suggests nothing. -/
theorem c1_exact_match (entries : List Entry) (query : Str) :
    (tokens_of query ≠ [] →
      (select_stations_by_query entries query).1 = entries.filter (fun e =>
        (tokens_of query).all (fun t => str_contains (normalize_text e.nomestaz) t)))
    ∧ (tokens_of query = [] → select_stations_by_query entries query = ([], [])) := by
  constructor
  · intro ht
    apply select_fst_eq
    intro hcl
    apply ht
    unfold tokens_of
    rw [hcl]
    rfl
  · intro ht
    simp only [select_stations_by_query]
    have hcl : (normalize_text (strip_generic_words query)).isEmpty = true := by
      by_contra hne
      obtain ⟨_, _, hhead, _⟩ := normed_normalize_text (strip_generic_words query)
      unfold tokens_of at ht
      rw [tokens_nil_iff] at ht
      rcases hcl2 : normalize_text (strip_generic_words query) with _ | ⟨c0, r0⟩
      · exact hne (by rw [hcl2]; rfl)
      · rw [hcl2] at hhead ht
        apply hhead
        simp only [List.head?_cons]
        rw [ht c0 (List.mem_cons_self _ _)]
    rw [if_pos hcl]

def secchia_entry : Entry := { nomestaz := "Fiume Secchia a Lama".toList }

/-- C1 witness: the documented scenario — query "secchia" matches the
Secchia station exactly. -/
theorem c1_witness :
    (select_stations_by_query [secchia_entry] ("secchia".toList)).1 = [secchia_entry] := by
  have h := (c1_exact_match [secchia_entry] ("secchia".toList)).1 (by decide)
  rw [h]
  decide

/-! ### C2: stable descending sort lemmas -/

lemma mem_insert_desc {p x : Nat × Entry} :
    ∀ {l}, x ∈ insert_desc p l ↔ x = p ∨ x ∈ l := by
  intro l
  induction l with
  | nil => simp [insert_desc]
  | cons q t ih =>
    simp only [insert_desc]
    by_cases h : q.1 ≤ p.1
    · rw [if_pos h]
      simp [List.mem_cons]
    · rw [if_neg h]
      simp only [List.mem_cons, ih]
      tauto

lemma mem_sort_desc {x : Nat × Entry} : ∀ {l}, x ∈ sort_desc l ↔ x ∈ l := by
  intro l
  induction l with
  | nil => simp [sort_desc]
  | cons a t ih => simp [sort_desc, mem_insert_desc, ih, List.mem_cons]

lemma pairwise_insert_desc {p : Nat × Entry} :
    ∀ {l}, List.Pairwise (fun a b => b.1 ≤ a.1) l →
      List.Pairwise (fun a b => b.1 ≤ a.1) (insert_desc p l) := by
  intro l
  induction l with
  | nil => intro _; simp [insert_desc]
  | cons q t ih =>
    intro h
    rcases List.pairwise_cons.mp h with ⟨hq, ht⟩
    simp only [insert_desc]
    by_cases hle : q.1 ≤ p.1
    · rw [if_pos hle]
      refine List.pairwise_cons.mpr ⟨?_, h⟩
      intro x hx
      rcases List.mem_cons.mp hx with rfl | hx
      · exact hle
      · exact le_trans (hq x hx) hle
    · rw [if_neg hle]
      refine List.pairwise_cons.mpr ⟨?_, ih ht⟩
      intro x hx
      rcases mem_insert_desc.mp hx with rfl | hx
      · omega
      · exact hq x hx

lemma pairwise_sort_desc : ∀ l, List.Pairwise (fun a b => b.1 ≤ a.1) (sort_desc l) := by
  intro l
  induction l with
  | nil => simp [sort_desc]
  | cons a t ih =>
    simp only [sort_desc]
    exact pairwise_insert_desc ih

lemma filter_insert_desc (p : Nat × Entry) (s : Nat) :
    ∀ l, (insert_desc p l).filter (fun x => x.1 == s)
      = ((p :: l).filter (fun x => x.1 == s)) := by
  intro l
  induction l with
  | nil => rfl
  | cons q t ih =>
    simp only [insert_desc]
    by_cases hle : q.1 ≤ p.1
    · rw [if_pos hle]
    · rw [if_neg hle]
      by_cases hq : (q.1 == s) = true
      · have hq' : q.1 = s := by simpa using hq
        have hp : (p.1 == s) = false := by
          simp only [beq_eq_false_iff_ne, ne_eq]
          omega
        simp [List.filter_cons, hq, hp, ih]
      · simp [List.filter_cons, hq, ih]

lemma filter_sort_desc (s : Nat) :
    ∀ l, (sort_desc l).filter (fun x => x.1 == s) = l.filter (fun x => x.1 == s) := by
  intro l
  induction l with
  | nil => rfl
  | cons a t ih =>
    simp only [sort_desc]
    rw [filter_insert_desc]
    simp [List.filter_cons, ih]

lemma mem_scored_entries {toks : List Str} {p : Nat × Entry} :
    ∀ {entries}, p ∈ scored_entries toks entries →
      p.1 = entry_score toks p.2 ∧ 0 < p.1 := by
  intro entries hp
  unfold scored_entries at hp
  rw [List.mem_filterMap] at hp
  obtain ⟨e, _, heq⟩ := hp
  simp only at heq
  by_cases hs : 0 < entry_score toks e
  · rw [if_pos hs] at heq
    cases heq
    exact ⟨rfl, hs⟩
  · rw [if_neg hs] at heq
    cases heq

lemma map_snd_filter_scored (toks : List Str) (s : Nat) :
    ∀ entries, ((scored_entries toks entries).filter (fun x => x.1 == s)).map
        (fun p => p.2)
      = if 0 < s then entries.filter (fun e => entry_score toks e == s) else [] := by
  intro entries
  induction entries with
  | nil => simp [scored_entries]
  | cons e t ih =>
    simp only [scored_entries, List.filterMap_cons] at ih ⊢
    by_cases hp : 0 < entry_score toks e
    · rw [if_pos hp]
      by_cases hs : (entry_score toks e == s) = true
      · have hs' : entry_score toks e = s := by simpa using hs
        have h0 : 0 < s := hs' ▸ hp
        simp [List.filter_cons, hs, ih, h0, hs']
      · simp [List.filter_cons, hs, ih]
    · rw [if_neg hp]
      by_cases h0 : 0 < s
      · have hs : (entry_score toks e == s) = false := by
          simp only [beq_eq_false_iff_ne, ne_eq]
          omega
        simp [ih, h0, List.filter_cons, hs]
      · simp [ih, h0]

/-- C2: when there is no exact match, `suggestions` has at most 5 entries,
contains only entries with positive token-overlap score, is sorted by
descending score, and entries with equal score keep their input order (their
equal-score subsequence is a sublist of the input filtered to that score). -/
theorem c2_suggestions (entries : List Entry) (query : Str)
    (h : (select_stations_by_query entries query).1 = []) :
    (suggestions_of entries query).length ≤ 5
    ∧ (∀ e ∈ suggestions_of entries query, 0 < entry_score (tokens_of query) e)
    ∧ List.Pairwise (fun a b =>
        entry_score (tokens_of query) b ≤ entry_score (tokens_of query) a)
        (suggestions_of entries query)
    ∧ ∀ s : Nat, List.Sublist
        ((suggestions_of entries query).filter
          (fun e => entry_score (tokens_of query) e == s))
        (entries.filter (fun e => entry_score (tokens_of query) e == s)) := by
  unfold suggestions_of
  simp only [select_stations_by_query] at h ⊢
  have htok : (split_sp (normalize_text (strip_generic_words query))).filter
      (fun t => !t.isEmpty) = tokens_of query := rfl
  rw [htok] at h ⊢
  by_cases hcl : (normalize_text (strip_generic_words query)).isEmpty = true
  · rw [if_pos hcl]
    refine ⟨by simp, by simp, by simp, fun s => ?_⟩
    exact List.nil_sublist _
  · rw [if_neg hcl] at h ⊢
    split at h
    · rename_i hm
      exfalso
      have hLnil : (List.filter (fun e => (tokens_of query).all
          (fun t => str_contains (normalize_text e.nomestaz) t)) entries) = [] := h
      rw [hLnil] at hm
      exact absurd hm (by decide)
    · rename_i hm
      rw [if_neg hm]
      dsimp only
      refine ⟨?_, ?_, ?_, ?_⟩
      · rw [List.length_map]
        exact List.length_take_le 5 _
      · intro e he
        rw [List.mem_map] at he
        obtain ⟨p, hp, rfl⟩ := he
        have hscored := mem_scored_entries (mem_sort_desc.mp (List.take_subset 5 _ hp))
        have h2 := hscored.2
        rw [hscored.1] at h2
        exact h2
      · rw [List.pairwise_map]
        have hpw := (pairwise_sort_desc (scored_entries (tokens_of query) entries)).sublist
          (List.take_sublist 5 _)
        refine hpw.imp_of_mem ?_
        intro a b ha hb hle
        have ha2 := mem_scored_entries (mem_sort_desc.mp (List.take_subset 5 _ ha))
        have hb2 := mem_scored_entries (mem_sort_desc.mp (List.take_subset 5 _ hb))
        rw [ha2.1, hb2.1] at hle
        exact hle
      · intro s
        rw [List.filter_map]
        have e3 : List.Sublist
            (((sort_desc (scored_entries (tokens_of query) entries)).take 5).filter
              ((fun e => entry_score (tokens_of query) e == s) ∘ (fun p => p.2)))
            ((sort_desc (scored_entries (tokens_of query) entries)).filter
              ((fun e => entry_score (tokens_of query) e == s) ∘ (fun p => p.2))) :=
          (List.take_sublist 5 _).filter _
        have e4 : (sort_desc (scored_entries (tokens_of query) entries)).filter
              ((fun e => entry_score (tokens_of query) e == s) ∘ (fun p => p.2))
            = (sort_desc (scored_entries (tokens_of query) entries)).filter
              (fun x => x.1 == s) := by
          apply List.filter_congr
          intro p hp
          have h2 := (mem_scored_entries (mem_sort_desc.mp hp)).1
          simp only [Function.comp_apply]
          rw [h2]
        refine List.Sublist.trans (e3.map (fun p => p.2)) ?_
        rw [e4, filter_sort_desc, map_snd_filter_scored]
        by_cases h0 : 0 < s
        · rw [if_pos h0]
        · rw [if_neg h0]
          exact List.nil_sublist _

def savio_entry : Entry := { nomestaz := "Torrente Savio a Cesena".toList }

def reno_entry : Entry := { nomestaz := "Fiume Reno a Bastia".toList }

/-- C2 witness: the documented fallback scenario ("cesena marina" against
the Savio and Reno stations) satisfies the suggestion bound. -/
theorem c2_witness :
    (suggestions_of [savio_entry, reno_entry] ("cesena marina".toList)).length ≤ 5 :=
  (c2_suggestions [savio_entry, reno_entry] ("cesena marina".toList) (by decide)).1
